import Mathlib

/-!
Verification of the reconciliation/sync engine and the label rule-matching
engine of pydatamail_google / pygmailfilter, via a shallow embedding of the
relevant Python functions.

The local store (SQLAlchemy tables) is embedded as plain lists of rows:
the email_content table is a list of EmailContent records, the labels table
a list of (email_id, label_id) pairs.  Strings stay strings; DateTime
columns are embedded as integers (timestamps), since no claim inspects them.
-/

/-- One row of the email_content table (database.py, class EmailContent).
The id primary key is the list position; email_date is embedded as Int. -/
structure EmailContent where
  email_id : String
  email_subject : String
  email_content : String
  email_deleted : Bool
  email_date : Int
deriving DecidableEq

/-- database.py, DatabaseInterface.list_email_ids: the email_id column of
every email_content row, in table order. -/
def list_email_ids (db : List EmailContent) : List String :=
  db.map (fun r => r.email_id)

/-- database.py, DatabaseInterface.get_labels_to_update: given the remote
message id list, diff it against the stored id list and return
(new_messages_lst, message_label_updates_lst, deleted_messages_lst). -/
def get_labels_to_update (db : List EmailContent) (message_id_lst : List String) :
    List String × List String × List String :=
  let email_in_db_id := list_email_ids db
  let new_messages_lst := message_id_lst.filter (fun m => decide (m ∉ email_in_db_id))
  let deleted_messages_lst := email_in_db_id.filter (fun m => decide (m ∉ message_id_lst))
  let message_label_updates_lst := message_id_lst.filter (fun m => decide (m ∈ email_in_db_id))
  (new_messages_lst, message_label_updates_lst, deleted_messages_lst)

/-- database.py, DatabaseInterface.mark_emails_as_deleted: set the
email_deleted flag of every row whose email_id is in the given list. -/
def mark_emails_as_deleted (db : List EmailContent) (message_id_lst : List String) :
    List EmailContent :=
  db.map (fun r =>
    if r.email_id ∈ message_id_lst then { r with email_deleted := true } else r)

/-- The four columns get_all_emails extracts from an email_content row. -/
def email_record (r : EmailContent) : String × String × String × Int :=
  (r.email_id, r.email_subject, r.email_content, r.email_date)

/-- database.py, DatabaseInterface.get_all_emails: all rows when
include_deleted, otherwise only the rows with email_deleted == False;
projected to (id, subject, content, date). -/
def get_all_emails (db : List EmailContent) (include_deleted : Bool) :
    List (String × String × String × Int) :=
  if include_deleted then db.map email_record
  else (db.filter (fun e => decide (e.email_deleted = false))).map email_record

/-- Claim C1: the three outputs of get_labels_to_update, viewed as sets, are
pairwise disjoint, their union is the union of the remote and stored id
sets, and they are remote minus local, remote intersect local, and local
minus remote respectively. -/
theorem get_labels_to_update_partition (db : List EmailContent)
    (message_id_lst : List String) :
    let remote := message_id_lst.toFinset
    let localIds := (list_email_ids db).toFinset
    let out := get_labels_to_update db message_id_lst
    out.1.toFinset = remote \ localIds ∧
    out.2.1.toFinset = remote ∩ localIds ∧
    out.2.2.toFinset = localIds \ remote ∧
    Disjoint out.1.toFinset out.2.1.toFinset ∧
    Disjoint out.1.toFinset out.2.2.toFinset ∧
    Disjoint out.2.1.toFinset out.2.2.toFinset ∧
    out.1.toFinset ∪ out.2.1.toFinset ∪ out.2.2.toFinset = remote ∪ localIds := by
  intro remote localIds out
  have h1 : out.1.toFinset = remote \ localIds := by
    ext x
    simp [out, remote, localIds, get_labels_to_update, List.mem_filter]
  have h2 : out.2.1.toFinset = remote ∩ localIds := by
    ext x
    simp [out, remote, localIds, get_labels_to_update, List.mem_filter]
  have h3 : out.2.2.toFinset = localIds \ remote := by
    ext x
    simp [out, remote, localIds, get_labels_to_update, List.mem_filter]
  refine ⟨h1, h2, h3, ?_, ?_, ?_, ?_⟩
  · rw [h1, h2]
    exact Finset.disjoint_left.mpr (fun x hx hy => (Finset.mem_sdiff.mp hx).2 (Finset.mem_inter.mp hy).2)
  · rw [h1, h3]
    exact Finset.disjoint_left.mpr (fun x hx hy => (Finset.mem_sdiff.mp hy).2 (Finset.mem_sdiff.mp hx).1)
  · rw [h2, h3]
    exact Finset.disjoint_left.mpr (fun x hx hy => (Finset.mem_sdiff.mp hy).2 (Finset.mem_inter.mp hx).1)
  · rw [h1, h2, h3]
    ext x
    simp only [Finset.mem_union, Finset.mem_sdiff, Finset.mem_inter]
    tauto

/-- Claim C4: mark_emails_as_deleted only sets the email_deleted flag (every
other column of every row is untouched and no row is removed), with the flag
of a row ending up true exactly when it already was or the row's id is in
the disappeared list; get_all_emails with include_deleted=false returns
exactly the projections of rows with email_deleted=false, and with
include_deleted=true the projections of all rows, tombstoned ones included. -/
theorem tombstone_semantics (db : List EmailContent) (message_id_lst : List String) :
    ((mark_emails_as_deleted db message_id_lst).map email_record = db.map email_record) ∧
    ((mark_emails_as_deleted db message_id_lst).map (fun r => r.email_deleted) =
      db.map (fun r => r.email_deleted || decide (r.email_id ∈ message_id_lst))) ∧
    (∀ x, x ∈ get_all_emails db false ↔
      ∃ r, r ∈ db ∧ r.email_deleted = false ∧ email_record r = x) ∧
    (∀ x, x ∈ get_all_emails db true ↔ ∃ r, r ∈ db ∧ email_record r = x) := by
  refine ⟨?_, ?_, ?_, ?_⟩
  · simp only [mark_emails_as_deleted, List.map_map]
    apply List.map_congr_left
    intro r _
    by_cases h : r.email_id ∈ message_id_lst <;> simp [h, email_record]
  · simp only [mark_emails_as_deleted, List.map_map]
    apply List.map_congr_left
    intro r _
    by_cases h : r.email_id ∈ message_id_lst <;> by_cases hd : r.email_deleted <;>
      simp [h, hd]
  · intro x
    simp only [get_all_emails, Bool.false_eq_true, if_false, List.mem_map,
      List.mem_filter, decide_eq_true_eq]
    constructor
    · rintro ⟨r, ⟨hr, hdel⟩, hproj⟩
      exact ⟨r, hr, hdel, hproj⟩
    · rintro ⟨r, hr, hdel, hproj⟩
      exact ⟨r, ⟨hr, hdel⟩, hproj⟩
  · intro x
    simp [get_all_emails]

/-- The labels table (database.py, class Labels) is a list of
(email_id, label_id) rows.  stored_labels is the query inside
update_labels: the label_id of every row whose email_id matches. -/
def stored_labels (table : List (String × String)) (message_id : String) : List String :=
  (table.filter (fun r => decide (r.1 = message_id))).map Prod.snd

/-- database.py, one iteration of the loop in DatabaseInterface.update_labels:
if the stored label list equals the fetched one, do nothing; otherwise add a
row for every label in remote minus stored and delete every row of the item
whose label is in stored minus remote. -/
def update_labels_one (table : List (String × String)) (message_id : String)
    (message_labels : List String) : List (String × String) :=
  let message_label_stored := stored_labels table message_id
  if message_label_stored = message_labels then table
  else
    let labels_to_add :=
      message_labels.dedup.filter (fun l => decide (l ∉ message_label_stored))
    let labels_to_remove :=
      message_label_stored.dedup.filter (fun l => decide (l ∉ message_labels))
    (table.filter (fun r => decide (¬(r.1 = message_id ∧ r.2 ∈ labels_to_remove)))) ++
      labels_to_add.map (fun l => (message_id, l))

/-- database.py, DatabaseInterface.update_labels: iterate update_labels_one
over zip(message_id_lst, message_meta_lst), embedded as a list of pairs. -/
def update_labels (table : List (String × String))
    (pairs : List (String × List String)) : List (String × String) :=
  pairs.foldl (fun t p => update_labels_one t p.1 p.2) table

theorem mem_stored_labels (table : List (String × String)) (m l : String) :
    l ∈ stored_labels table m ↔ (m, l) ∈ table := by
  simp only [stored_labels, List.mem_map, List.mem_filter, decide_eq_true_eq]
  constructor
  · rintro ⟨⟨a, b⟩, ⟨hmem, ha⟩, hb⟩
    dsimp only at ha hb
    rw [← ha, ← hb]
    exact hmem
  · intro h
    exact ⟨(m, l), ⟨h, rfl⟩, rfl⟩

theorem update_labels_one_mem_self (table : List (String × String)) (mid : String)
    (rl : List String) (l : String) :
    (mid, l) ∈ update_labels_one table mid rl ↔ l ∈ rl := by
  by_cases hg : stored_labels table mid = rl
  · simp only [update_labels_one, if_pos hg]
    rw [← mem_stored_labels table mid l, hg]
  · simp only [update_labels_one, if_neg hg, List.mem_append, List.mem_filter,
      List.mem_map, List.mem_dedup, decide_eq_true_eq, Prod.mk.injEq]
    constructor
    · rintro (⟨hmem, hne⟩ | ⟨a, ⟨ha1, _⟩, _, rfl⟩)
      · by_contra hnl
        exact hne ⟨trivial, (mem_stored_labels table mid l).mpr hmem, hnl⟩
      · exact ha1
    · intro hl
      by_cases hs : l ∈ stored_labels table mid
      · left
        exact ⟨(mem_stored_labels table mid l).mp hs, fun h => h.2.2 hl⟩
      · right
        exact ⟨l, ⟨hl, hs⟩, by simp⟩

theorem update_labels_one_frame (table : List (String × String)) (mid : String)
    (rl : List String) (r : String × String) (h : r.1 ≠ mid) :
    r ∈ update_labels_one table mid rl ↔ r ∈ table := by
  by_cases hg : stored_labels table mid = rl
  · simp [update_labels_one, hg]
  · simp only [update_labels_one, if_neg hg, List.mem_append, List.mem_filter,
      List.mem_map, decide_eq_true_eq]
    constructor
    · rintro (⟨h1, _⟩ | ⟨a, _, heq⟩)
      · exact h1
      · exact absurd (congrArg Prod.fst heq).symm h
    · intro hr
      left
      exact ⟨hr, fun hc => h hc.1⟩

theorem update_labels_one_of_mem_eq (table : List (String × String)) (mid : String)
    (rl : List String) (h : ∀ l, l ∈ stored_labels table mid ↔ l ∈ rl) :
    update_labels_one table mid rl = table := by
  by_cases hg : stored_labels table mid = rl
  · simp [update_labels_one, hg]
  · have hadd : rl.dedup.filter (fun l => decide (l ∉ stored_labels table mid)) = [] := by
      rw [List.filter_eq_nil_iff]
      intro a ha
      simp only [decide_eq_true_eq, not_not]
      exact (h a).mpr (List.mem_dedup.mp ha)
    have hrem : (stored_labels table mid).dedup.filter (fun l => decide (l ∉ rl)) = [] := by
      rw [List.filter_eq_nil_iff]
      intro a ha
      simp only [decide_eq_true_eq, not_not]
      exact (h a).mp (List.mem_dedup.mp ha)
    simp only [update_labels_one, if_neg hg, hadd, hrem, List.map_nil, List.append_nil]
    apply List.filter_eq_self.mpr
    intro a _
    simp

/-- Claim C5: per-item label reconciliation keeps a stored row of the item
exactly when its label is still in the remote set (so it deletes exactly
local minus remote and leaves rows in both sets untouched), inserts a row
for a not-yet-stored label exactly when it is in the remote set (so it
inserts exactly remote minus local), touches no row of any other item, and
does nothing at all when the stored and remote label sets are equal. -/
theorem update_labels_one_delta (table : List (String × String)) (mid : String)
    (rl : List String) :
    (∀ r, r ∈ table → r.1 = mid →
      (r ∈ update_labels_one table mid rl ↔ r.2 ∈ rl)) ∧
    (∀ l, l ∉ stored_labels table mid →
      ((mid, l) ∈ update_labels_one table mid rl ↔ l ∈ rl)) ∧
    (∀ r, r.1 ≠ mid → (r ∈ update_labels_one table mid rl ↔ r ∈ table)) ∧
    ((stored_labels table mid).toFinset = rl.toFinset →
      update_labels_one table mid rl = table) := by
  refine ⟨?_, ?_, ?_, ?_⟩
  · rintro ⟨a, b⟩ hmem ha
    dsimp only at ha ⊢
    rw [ha]
    exact update_labels_one_mem_self table mid rl b
  · intro l _
    exact update_labels_one_mem_self table mid rl l
  · intro r hr
    exact update_labels_one_frame table mid rl r hr
  · intro hset
    apply update_labels_one_of_mem_eq
    intro l
    rw [← List.mem_toFinset, hset, List.mem_toFinset]

/-- Witness for C5: concrete instance with stored labels \x7bL1, L2\x7d of item a
and remote labels \x7bL2, L4\x7d — row (a, L2) survives, (a, L1) is gone,
(a, L4) is inserted, item b is untouched, and an item whose stored set
already equals the remote set is left byte-identical. -/
theorem update_labels_one_delta_witness :
    (("a", "L2") ∈ update_labels_one [("a", "L1"), ("a", "L2"), ("b", "L3")] "a" ["L2", "L4"] ↔
      "L2" ∈ ["L2", "L4"]) ∧
    (("a", "L4") ∈ update_labels_one [("a", "L1"), ("a", "L2"), ("b", "L3")] "a" ["L2", "L4"] ↔
      "L4" ∈ ["L2", "L4"]) ∧
    (("b", "L3") ∈ update_labels_one [("a", "L1"), ("a", "L2"), ("b", "L3")] "a" ["L2", "L4"] ↔
      ("b", "L3") ∈ [("a", "L1"), ("a", "L2"), ("b", "L3")]) ∧
    update_labels_one [("a", "L2"), ("a", "L1")] "a" ["L1", "L2"] = [("a", "L2"), ("a", "L1")] :=
  ⟨(update_labels_one_delta [("a", "L1"), ("a", "L2"), ("b", "L3")] "a" ["L2", "L4"]).1
      ("a", "L2") (by decide) (by decide),
    (update_labels_one_delta [("a", "L1"), ("a", "L2"), ("b", "L3")] "a" ["L2", "L4"]).2.1
      "L4" (by decide),
    (update_labels_one_delta [("a", "L1"), ("a", "L2"), ("b", "L3")] "a" ["L2", "L4"]).2.2.1
      ("b", "L3") (by decide),
    (update_labels_one_delta [("a", "L2"), ("a", "L1")] "a" ["L1", "L2"]).2.2.2 (by decide)⟩

/-- The whole mirrored store: the email_content rows and the labels rows. -/
structure DBState where
  emails : List EmailContent
  labels : List (String × String)

/-- google_mail.py / gmail.py, _store_emails_in_database on the
email_content side: download each new message and append one row with
email_deleted=False (database.py, _commit_content_table); detail gives the
(subject, content, date) of a message id. -/
def insert_new_emails (db : List EmailContent) (ids : List String)
    (detail : String → String × String × Int) : List EmailContent :=
  db ++ ids.map (fun i =>
    { email_id := i, email_subject := (detail i).1, email_content := (detail i).2.1,
      email_deleted := false, email_date := (detail i).2.2 })

/-- database.py, _commit_label_table on the same insertion: one label row
per remote label of each newly stored message. -/
def insert_new_labels (table : List (String × String)) (ids : List String)
    (remote_labels : String → List String) : List (String × String) :=
  table ++ ids.flatMap (fun i => (remote_labels i).map (fun l => (i, l)))

/-- gmail.py, Gmail.update_database (quick=False path of google_mail.py):
one full reconciliation run — diff the remote id listing against the store,
tombstone the disappeared ids, reconcile the labels of every retained id
against its remote label set, then download and insert the new ids. -/
def reconcile (s : DBState) (remote : List String)
    (remote_labels : String → List String)
    (detail : String → String × String × Int) : DBState :=
  let diff := get_labels_to_update s.emails remote
  let emails1 := mark_emails_as_deleted s.emails diff.2.2
  let labels1 := update_labels s.labels (diff.2.1.map (fun m => (m, remote_labels m)))
  { emails := insert_new_emails emails1 diff.1 detail,
    labels := insert_new_labels labels1 diff.1 remote_labels }

theorem update_labels_cons (table : List (String × String)) (p : String × List String)
    (ps : List (String × List String)) :
    update_labels table (p :: ps) = update_labels (update_labels_one table p.1 p.2) ps := rfl

theorem update_labels_frame (pairs : List (String × List String))
    (table : List (String × String)) (m l : String)
    (h : ∀ p ∈ pairs, p.1 ≠ m) :
    (m, l) ∈ update_labels table pairs ↔ (m, l) ∈ table := by
  induction pairs generalizing table with
  | nil => exact Iff.rfl
  | cons p ps ih =>
    rw [update_labels_cons]
    rw [ih _ (fun q hq => h q (List.mem_cons_of_mem p hq))]
    exact update_labels_one_frame table p.1 p.2 (m, l)
      (Ne.symm (h p (List.mem_cons_self p ps)))

theorem update_labels_hit (pairs : List (String × List String))
    (table : List (String × String)) (m l : String) (rl : List String) :
    (m, rl) ∈ pairs → (∀ p ∈ pairs, p.1 = m → p.2 = rl) →
    ((m, l) ∈ update_labels table pairs ↔ l ∈ rl) := by
  induction pairs generalizing table with
  | nil => intro hmem _; exact absurd hmem (List.not_mem_nil _)
  | cons p ps ih =>
    intro hmem huniq
    rw [update_labels_cons]
    by_cases hps : ∃ q ∈ ps, q.1 = m
    · obtain ⟨q, hq, hq1⟩ := hps
      have hq2 : q.2 = rl := huniq q (List.mem_cons_of_mem p hq) hq1
      have hmem2 : (m, rl) ∈ ps := by rw [← hq1, ← hq2]; exact hq
      exact ih _ hmem2 (fun r hr h1 => huniq r (List.mem_cons_of_mem p hr) h1)
    · push_neg at hps
      rcases List.mem_cons.mp hmem with heq | hmem2
      · rw [update_labels_frame ps _ m l hps, ← heq]
        exact update_labels_one_mem_self table m rl l
      · exact absurd rfl (hps (m, rl) hmem2)

theorem list_email_ids_mark (db : List EmailContent) (g : List String) :
    list_email_ids (mark_emails_as_deleted db g) = list_email_ids db := by
  simp only [list_email_ids, mark_emails_as_deleted, List.map_map]
  apply List.map_congr_left
  intro r _
  by_cases h : r.email_id ∈ g <;> simp [h]

theorem list_email_ids_insert (db : List EmailContent) (ids : List String)
    (detail : String → String × String × Int) :
    list_email_ids (insert_new_emails db ids detail) = list_email_ids db ++ ids := by
  simp only [list_email_ids, insert_new_emails, List.map_append, List.map_map]
  congr 1
  dsimp only [Function.comp]
  exact List.map_id ids

theorem get_labels_to_update_fst (db : List EmailContent) (r : List String) :
    (get_labels_to_update db r).1 = r.filter (fun m => decide (m ∉ list_email_ids db)) := rfl

theorem get_labels_to_update_snd (db : List EmailContent) (r : List String) :
    (get_labels_to_update db r).2.1 = r.filter (fun m => decide (m ∈ list_email_ids db)) := rfl

theorem get_labels_to_update_thd (db : List EmailContent) (r : List String) :
    (get_labels_to_update db r).2.2 =
      (list_email_ids db).filter (fun m => decide (m ∉ r)) := rfl

theorem reconcile_emails_eq (s : DBState) (remote : List String)
    (remote_labels : String → List String) (detail : String → String × String × Int) :
    (reconcile s remote remote_labels detail).emails =
      insert_new_emails
        (mark_emails_as_deleted s.emails
          ((list_email_ids s.emails).filter (fun m => decide (m ∉ remote))))
        (remote.filter (fun m => decide (m ∉ list_email_ids s.emails))) detail := rfl

theorem reconcile_labels_eq (s : DBState) (remote : List String)
    (remote_labels : String → List String) (detail : String → String × String × Int) :
    (reconcile s remote remote_labels detail).labels =
      update_labels s.labels
        ((remote.filter (fun m => decide (m ∈ list_email_ids s.emails))).map
          (fun m => (m, remote_labels m))) ++
      (remote.filter (fun m => decide (m ∉ list_email_ids s.emails))).flatMap
        (fun i => (remote_labels i).map (fun l => (i, l))) := rfl

theorem insert_new_emails_cases (db : List EmailContent) (ids : List String)
    (detail : String → String × String × Int) (r : EmailContent)
    (hr : r ∈ insert_new_emails db ids detail) :
    r ∈ db ∨ (r.email_id ∈ ids ∧ r.email_deleted = false) := by
  rcases List.mem_append.mp hr with h | h
  · exact Or.inl h
  · rcases List.mem_map.mp h with ⟨i, hi, heq⟩
    right
    rw [← heq]
    exact ⟨hi, rfl⟩

theorem mark_emails_cases (db : List EmailContent) (g : List String) (r : EmailContent)
    (hr : r ∈ mark_emails_as_deleted db g) :
    ∃ r0, r0 ∈ db ∧
      ((r0.email_id ∈ g ∧ r = { r0 with email_deleted := true }) ∨
       (r0.email_id ∉ g ∧ r = r0)) := by
  rcases List.mem_map.mp hr with ⟨r0, h0, heq⟩
  refine ⟨r0, h0, ?_⟩
  by_cases hg : r0.email_id ∈ g
  · left
    exact ⟨hg, by rw [← heq, if_pos hg]⟩
  · right
    exact ⟨hg, by rw [← heq, if_neg hg]⟩

theorem reconcile_labels_mem (s : DBState) (remote : List String)
    (remote_labels : String → List String) (detail : String → String × String × Int)
    (hwf : ∀ r ∈ s.labels, r.1 ∈ list_email_ids s.emails)
    (m : String) (hmr : m ∈ remote) (l : String) :
    (m, l) ∈ (reconcile s remote remote_labels detail).labels ↔ l ∈ remote_labels m := by
  rw [reconcile_labels_eq, List.mem_append]
  by_cases hold : m ∈ list_email_ids s.emails
  · have hpair : (m, remote_labels m) ∈
        (remote.filter (fun x => decide (x ∈ list_email_ids s.emails))).map
          (fun x => (x, remote_labels x)) :=
      List.mem_map.mpr ⟨m, List.mem_filter.mpr ⟨hmr, by simpa⟩, rfl⟩
    have huniq : ∀ p ∈ (remote.filter (fun x => decide (x ∈ list_email_ids s.emails))).map
        (fun x => (x, remote_labels x)), p.1 = m → p.2 = remote_labels m := by
      intro p hp h1
      rcases List.mem_map.mp hp with ⟨x, _, hx2⟩
      rw [← hx2] at h1 ⊢
      dsimp only at h1 ⊢
      rw [h1]
    rw [update_labels_hit _ s.labels m l (remote_labels m) hpair huniq]
    have hnew : (m, l) ∉ (remote.filter (fun x => decide (x ∉ list_email_ids s.emails))).flatMap
        (fun i => (remote_labels i).map (fun l2 => (i, l2))) := by
      intro hc
      rcases List.mem_flatMap.mp hc with ⟨i, hi, hil⟩
      rcases List.mem_map.mp hil with ⟨l2, _, heq⟩
      have him : i = m := congrArg Prod.fst heq
      rw [him] at hi
      have := (List.mem_filter.mp hi).2
      simp only [decide_eq_true_eq] at this
      exact this hold
    tauto
  · have hfr : ∀ p ∈ (remote.filter (fun x => decide (x ∈ list_email_ids s.emails))).map
        (fun x => (x, remote_labels x)), p.1 ≠ m := by
      intro p hp
      rcases List.mem_map.mp hp with ⟨x, hx, hx2⟩
      have hxin := (List.mem_filter.mp hx).2
      simp only [decide_eq_true_eq] at hxin
      rw [← hx2]
      dsimp only
      intro hc
      rw [hc] at hxin
      exact hold hxin
    rw [update_labels_frame _ s.labels m l hfr]
    have hnotlab : (m, l) ∉ s.labels := fun hc => hold (hwf (m, l) hc)
    have hnew : (m, l) ∈ (remote.filter (fun x => decide (x ∉ list_email_ids s.emails))).flatMap
        (fun i => (remote_labels i).map (fun l2 => (i, l2))) ↔ l ∈ remote_labels m := by
      constructor
      · intro hc
        rcases List.mem_flatMap.mp hc with ⟨i, _, hil⟩
        rcases List.mem_map.mp hil with ⟨l2, hl2, heq⟩
        have him : i = m := congrArg Prod.fst heq
        have hlm : l2 = l := congrArg Prod.snd heq
        rw [← hlm, ← him]
        exact hl2
      · intro hl
        exact List.mem_flatMap.mpr ⟨m, List.mem_filter.mpr ⟨hmr, by simpa⟩,
          List.mem_map.mpr ⟨l, hl, rfl⟩⟩
    tauto

/-- Claim C6 (amended): for a well-formed store (every label row has its
email row), a second reconciliation run with the same remote id listing and
remote label sets yields an empty new_messages_lst and, for every item of
message_label_updates_lst, empty add and remove label deltas; the second
run's deleted_messages_lst, however, is not empty in general — since
list_email_ids does not exclude tombstoned rows, it re-lists the already
tombstoned ids, every email row outside the remote listing being already
marked deleted after the first run (so re-marking changes nothing). -/
theorem reconcile_second_run (s : DBState) (remote : List String)
    (remote_labels : String → List String)
    (detail : String → String × String × Int)
    (hwf : ∀ r ∈ s.labels, r.1 ∈ list_email_ids s.emails) :
    ((get_labels_to_update (reconcile s remote remote_labels detail).emails remote).1 = []) ∧
    (∀ m ∈ (get_labels_to_update (reconcile s remote remote_labels detail).emails remote).2.1,
      (remote_labels m).dedup.filter
        (fun l => decide (l ∉ stored_labels (reconcile s remote remote_labels detail).labels m)) = [] ∧
      (stored_labels (reconcile s remote remote_labels detail).labels m).dedup.filter
        (fun l => decide (l ∉ remote_labels m)) = []) ∧
    (∀ r ∈ (reconcile s remote remote_labels detail).emails,
      r.email_id ∉ remote → r.email_deleted = true) := by
  have hids1 : list_email_ids (reconcile s remote remote_labels detail).emails =
      list_email_ids s.emails ++
        remote.filter (fun m => decide (m ∉ list_email_ids s.emails)) := by
    rw [reconcile_emails_eq, list_email_ids_insert, list_email_ids_mark]
  refine ⟨?_, ?_, ?_⟩
  · rw [get_labels_to_update_fst, List.filter_eq_nil_iff]
    intro a ha
    simp only [decide_eq_true_eq, not_not]
    rw [hids1, List.mem_append]
    by_cases h : a ∈ list_email_ids s.emails
    · exact Or.inl h
    · exact Or.inr (List.mem_filter.mpr ⟨ha, by simpa⟩)
  · intro m hm
    rw [get_labels_to_update_snd] at hm
    have hmr : m ∈ remote := (List.mem_filter.mp hm).1
    have hsl : ∀ l, l ∈ stored_labels (reconcile s remote remote_labels detail).labels m ↔
        l ∈ remote_labels m := by
      intro l
      rw [mem_stored_labels]
      exact reconcile_labels_mem s remote remote_labels detail hwf m hmr l
    constructor
    · rw [List.filter_eq_nil_iff]
      intro a ha
      simp only [decide_eq_true_eq, not_not]
      exact (hsl a).mpr (List.mem_dedup.mp ha)
    · rw [List.filter_eq_nil_iff]
      intro a ha
      simp only [decide_eq_true_eq, not_not]
      exact (hsl a).mp (List.mem_dedup.mp ha)
  · intro r hr hid
    rw [reconcile_emails_eq] at hr
    rcases insert_new_emails_cases _ _ _ r hr with h | h
    · rcases mark_emails_cases _ _ r h with ⟨r0, hr0, (⟨_, heq⟩ | ⟨hg, heq⟩)⟩
      · rw [heq]
      · exfalso
        apply hg
        rw [heq] at hid
        refine List.mem_filter.mpr ⟨?_, by simpa⟩
        exact List.mem_map.mpr ⟨r0, hr0, rfl⟩
    · exfalso
      exact hid ((List.mem_filter.mp h.1).1)

/-- Counterexample to claim C6 as stated: start from a store holding one
email a and an empty remote listing.  The first reconciliation tombstones a,
but list_email_ids does not exclude tombstoned rows, so the second run's
deleted_messages_lst is again [a] — not empty as the claim requires. -/
theorem reconcile_second_run_gone_nonempty :
    ((get_labels_to_update
        (reconcile ⟨[⟨"a", "s", "c", false, 0⟩], []⟩ [] (fun _ => []) (fun _ => ("", "", 0))).emails
        []).2.2 = ["a"]) ∧
    ((get_labels_to_update
        (reconcile ⟨[⟨"a", "s", "c", false, 0⟩], []⟩ [] (fun _ => []) (fun _ => ("", "", 0))).emails
        []).2.2 ≠ []) := by
  constructor
  · rfl
  · decide

/-- Witness for the amended C6: a concrete run (store with emails a, c and
label row (a, L1); remote listing [a, b] with labels L2 for a and L3 for b)
on which the second diff has no new ids, the label delta of changed item a
is empty on both sides, and the email row of the disappeared id c is
tombstoned, not removed. -/
theorem reconcile_second_run_witness :
    ((get_labels_to_update
        (reconcile ⟨[⟨"a", "s", "c", false, 0⟩, ⟨"c", "s2", "c2", false, 0⟩], [("a", "L1")]⟩
          ["a", "b"] (fun x => if x = "a" then ["L2"] else ["L3"])
          (fun _ => ("", "", 0))).emails ["a", "b"]).1 = []) ∧
    (((fun x => if x = "a" then ["L2"] else ["L3"]) "a").dedup.filter
        (fun l => decide (l ∉ stored_labels
          (reconcile ⟨[⟨"a", "s", "c", false, 0⟩, ⟨"c", "s2", "c2", false, 0⟩], [("a", "L1")]⟩
            ["a", "b"] (fun x => if x = "a" then ["L2"] else ["L3"])
            (fun _ => ("", "", 0))).labels "a")) = []) ∧
    ((stored_labels
        (reconcile ⟨[⟨"a", "s", "c", false, 0⟩, ⟨"c", "s2", "c2", false, 0⟩], [("a", "L1")]⟩
          ["a", "b"] (fun x => if x = "a" then ["L2"] else ["L3"])
          (fun _ => ("", "", 0))).labels "a").dedup.filter
        (fun l => decide (l ∉ (fun x => if x = "a" then ["L2"] else ["L3"]) "a")) = []) ∧
    ((⟨"c", "s2", "c2", true, 0⟩ : EmailContent).email_deleted = true) :=
  ⟨(reconcile_second_run
      ⟨[⟨"a", "s", "c", false, 0⟩, ⟨"c", "s2", "c2", false, 0⟩], [("a", "L1")]⟩
      ["a", "b"] (fun x => if x = "a" then ["L2"] else ["L3"]) (fun _ => ("", "", 0))
      (by decide)).1,
   ((reconcile_second_run
      ⟨[⟨"a", "s", "c", false, 0⟩, ⟨"c", "s2", "c2", false, 0⟩], [("a", "L1")]⟩
      ["a", "b"] (fun x => if x = "a" then ["L2"] else ["L3"]) (fun _ => ("", "", 0))
      (by decide)).2.1 "a" (by decide)).1,
   ((reconcile_second_run
      ⟨[⟨"a", "s", "c", false, 0⟩, ⟨"c", "s2", "c2", false, 0⟩], [("a", "L1")]⟩
      ["a", "b"] (fun x => if x = "a" then ["L2"] else ["L3"]) (fun _ => ("", "", 0))
      (by decide)).2.1 "a" (by decide)).2,
   (reconcile_second_run
      ⟨[⟨"a", "s", "c", false, 0⟩, ⟨"c", "s2", "c2", false, 0⟩], [("a", "L1")]⟩
      ["a", "b"] (fun x => if x = "a" then ["L2"] else ["L3"]) (fun _ => ("", "", 0))
      (by decide)).2.2 ⟨"c", "s2", "c2", true, 0⟩ (by decide) (by decide)⟩

/-- One filter rule (a filter_dict of google_mail.py / gmail.py / filter.py):
a field is some pattern exactly when the corresponding key is present in the
dict; label is the rule's target label (the value _label_dict translates).
Header values and patterns are lists of characters; python substring
containment (the `in` operator) is List.IsInfix. -/
structure FilterDict where
  from_pattern : Option (List Char)
  to_pattern : Option (List Char)
  subject_pattern : Option (List Char)
  label : String

/-- The header projection of a message: message.get_from(), get_to(),
get_subject(), each none when the header is absent (message.py returns
None then). -/
structure MessageHeaders where
  msg_from : Option (List Char)
  msg_to : Option (List Char)
  msg_subject : Option (List Char)

/-- One guard of google_mail.py _filter_message_by_sender: the key is
present, the header value is not None, and the pattern occurs as a
substring of the header value. -/
def field_match (pat : Option (List Char)) (val : Option (List Char)) : Bool :=
  match pat, val with
  | some p, some v => decide (p <:+: v)
  | _, _ => false

/-- google_mail.py / gmail.py, _filter_message_by_sender: walk the rules in
input order; within a rule test from, then to, then subject; return the
first matching rule's target label, or None when no rule matches. -/
def filter_message_by_sender (filter_dict_lst : List FilterDict)
    (message : MessageHeaders) : Option String :=
  match filter_dict_lst with
  | [] => none
  | filter_dict :: rest =>
    if field_match filter_dict.from_pattern message.msg_from then some filter_dict.label
    else if field_match filter_dict.to_pattern message.msg_to then some filter_dict.label
    else if field_match filter_dict.subject_pattern message.msg_subject then
      some filter_dict.label
    else filter_message_by_sender rest message

/-- Spec §4.2 wording: a rule matches when any of its populated fields
matches (from OR to OR subject). -/
def rule_matches (filter_dict : FilterDict) (message : MessageHeaders) : Bool :=
  field_match filter_dict.from_pattern message.msg_from ||
    field_match filter_dict.to_pattern message.msg_to ||
    field_match filter_dict.subject_pattern message.msg_subject

/-- Spec §4.2 wording: the target label of the first rule, in input order,
that matches the message. -/
def spec_first_match (filter_dict_lst : List FilterDict)
    (message : MessageHeaders) : Option String :=
  (filter_dict_lst.find? (fun r => rule_matches r message)).map (fun r => r.label)

/-- Claim C2: the matcher equals the spec's first-match evaluation — the
target label of the first rule in list order any of whose populated fields
(from OR to OR subject, in that order, case-sensitive substring test)
matches, later rules never reached — and on the spec's precedence example
(rule 1 on from, rule 2 on subject, both with the same pattern) it returns
the first rule's label L1. -/
theorem filter_message_by_sender_first_match (filter_dict_lst : List FilterDict)
    (message : MessageHeaders) :
    (filter_message_by_sender filter_dict_lst message =
      spec_first_match filter_dict_lst message) ∧
    (filter_message_by_sender
      [⟨some "a@x.com".toList, none, none, "L1"⟩,
       ⟨none, none, some "a@x.com".toList, "L2"⟩]
      ⟨some "a@x.com".toList, none, some "unrelated".toList⟩ = some "L1") := by
  constructor
  · induction filter_dict_lst with
    | nil => rfl
    | cons r rest ih =>
      by_cases h1 : field_match r.from_pattern message.msg_from
      · have hr : rule_matches r message = true := by simp [rule_matches, h1]
        simp [filter_message_by_sender, spec_first_match, h1, List.find?_cons, hr]
      · by_cases h2 : field_match r.to_pattern message.msg_to
        · have hr : rule_matches r message = true := by simp [rule_matches, h2]
          simp [filter_message_by_sender, spec_first_match, h1, h2, List.find?_cons, hr]
        · by_cases h3 : field_match r.subject_pattern message.msg_subject
          · have hr : rule_matches r message = true := by simp [rule_matches, h3]
            simp [filter_message_by_sender, spec_first_match, h1, h2, h3,
              List.find?_cons, hr]
          · have hr : rule_matches r message = false := by
              simp [rule_matches, h1, h2, h3]
            simp only [filter_message_by_sender, h1, h2, h3, Bool.false_eq_true,
              if_false]
            rw [ih]
            simp [spec_first_match, List.find?_cons, hr]
  · decide

/-- filter.py (the earlier pygmailfilter variant), one guard of its
_filter_message_by_sender: the key-presence test short-circuits, but a
populated pattern is tested with python `in` directly against the header
value, which raises TypeError when that value is None. Embedded with
Except; error carries the raised exception. -/
def field_match_legacy (pat : Option (List Char)) (val : Option (List Char)) :
    Except String Bool :=
  match pat, val with
  | none, _ => Except.ok false
  | some _, none => Except.error "TypeError: argument of type NoneType is not iterable"
  | some p, some v => Except.ok (decide (p <:+: v))

/-- filter.py, _filter_message_by_sender (lines 95-108): same rule walk as
the google_mail.py matcher but without the None guards, so a rule whose
populated field refers to an absent header raises instead of skipping. -/
def filter_message_by_sender_legacy (filter_dict_lst : List FilterDict)
    (message : MessageHeaders) : Except String (Option String) :=
  match filter_dict_lst with
  | [] => Except.ok none
  | filter_dict :: rest =>
    match field_match_legacy filter_dict.from_pattern message.msg_from with
    | Except.error e => Except.error e
    | Except.ok true => Except.ok (some filter_dict.label)
    | Except.ok false =>
      match field_match_legacy filter_dict.to_pattern message.msg_to with
      | Except.error e => Except.error e
      | Except.ok true => Except.ok (some filter_dict.label)
      | Except.ok false =>
        match field_match_legacy filter_dict.subject_pattern message.msg_subject with
        | Except.error e => Except.error e
        | Except.ok true => Except.ok (some filter_dict.label)
        | Except.ok false => filter_message_by_sender_legacy rest message

/-- Counterexample to claim C3 as stated: the claim covers filter.py's
matcher too, but on a message with to=None and the single rule
\x7bto: foo, label: L\x7d that matcher raises TypeError (python `in` against
None) instead of treating the rule as a non-match. -/
theorem filter_message_by_sender_legacy_raises :
    filter_message_by_sender_legacy [⟨none, some "foo".toList, none, "L"⟩]
      ⟨some "x".toList, none, some "y".toList⟩ =
      Except.error "TypeError: argument of type NoneType is not iterable" := rfl

/-- Claim C3 (amended): the google_mail.py / gmail.py matcher treats a rule
whose populated fields all refer to absent headers as a non-match and simply
continues with the remaining rules (returning none when nothing is left),
never raising; only the earlier filter.py variant raises a TypeError in
that situation. -/
theorem filter_message_by_sender_null_safe (r : FilterDict)
    (rest : List FilterDict) (message : MessageHeaders)
    (hf : r.from_pattern.isSome → message.msg_from = none)
    (ht : r.to_pattern.isSome → message.msg_to = none)
    (hs : r.subject_pattern.isSome → message.msg_subject = none) :
    filter_message_by_sender (r :: rest) message =
      filter_message_by_sender rest message := by
  have hm : ∀ (pat val : Option (List Char)), (pat.isSome → val = none) →
      field_match pat val = false := by
    intro pat val h
    cases pat with
    | none => rfl
    | some p =>
      rw [h rfl]
      rfl
  simp only [filter_message_by_sender, hm r.from_pattern message.msg_from hf,
    hm r.to_pattern message.msg_to ht, hm r.subject_pattern message.msg_subject hs,
    Bool.false_eq_true, if_false]

/-- Witness for the amended C3: the spec's null-safe example — message with
to=None, single rule \x7bto: foo, label: L\x7d — where the null-safe matcher
returns none rather than raising. -/
theorem filter_message_by_sender_null_safe_witness :
    filter_message_by_sender [⟨none, some "foo".toList, none, "L"⟩]
      ⟨some "x".toList, none, some "y".toList⟩ = none :=
  (filter_message_by_sender_null_safe ⟨none, some "foo".toList, none, "L"⟩ []
    ⟨some "x".toList, none, some "y".toList⟩ (by decide) (fun _ => rfl)
    (by decide)).trans rfl

/-- The body of the remote labels.modify call built by
_modify_message_labels: each key present only when its list is non-empty. -/
structure ModifyBody where
  removeLabelIds : Option (List String)
  addLabelIds : Option (List String)
deriving DecidableEq

/-- google_mail.py / gmail.py, _modify_message_labels: populate body_dict
from the non-empty lists and call the remote modify endpoint only when
body_dict is non-empty; the result is the list of remote calls issued. -/
def modify_message_labels (label_id_remove_lst label_id_add_lst : List String) :
    List ModifyBody :=
  let body : ModifyBody :=
    { removeLabelIds :=
        if label_id_remove_lst.length > 0 then some label_id_remove_lst else none,
      addLabelIds :=
        if label_id_add_lst.length > 0 then some label_id_add_lst else none }
  if body.removeLabelIds.isSome ∨ body.addLabelIds.isSome then [body] else []

/-- Claim C7: the label-mutation driver issues zero remote calls when both
lists are empty; it issues a call exactly when at least one list is
non-empty; and when both are non-empty the single call carries both the
remove side and the add side. -/
theorem modify_message_labels_calls (label_id_remove_lst label_id_add_lst : List String) :
    (modify_message_labels [] [] = []) ∧
    (modify_message_labels label_id_remove_lst label_id_add_lst ≠ [] ↔
      (label_id_remove_lst ≠ [] ∨ label_id_add_lst ≠ [])) ∧
    (label_id_remove_lst ≠ [] → label_id_add_lst ≠ [] →
      modify_message_labels label_id_remove_lst label_id_add_lst =
        [⟨some label_id_remove_lst, some label_id_add_lst⟩]) := by
  refine ⟨rfl, ?_, ?_⟩
  · by_cases hr : label_id_remove_lst = [] <;> by_cases ha : label_id_add_lst = [] <;>
      simp [modify_message_labels, hr, ha, List.length_pos]
  · intro hr ha
    simp [modify_message_labels, hr, ha, List.length_pos]

/-- Witness for C7 at concrete lists: no call for ([], []), one bundled call
for ([A], [B]). -/
theorem modify_message_labels_calls_witness :
    (modify_message_labels [] [] = []) ∧
    (modify_message_labels ["A"] ["B"] =
      [⟨some ["A"], some ["B"]⟩]) :=
  ⟨(modify_message_labels_calls ["A"] ["B"]).1,
   (modify_message_labels_calls ["A"] ["B"]).2.2 (by decide) (by decide)⟩

/-- The task kinds google_mail.py load_json_tasks executes, each issuing
remote label mutations in general. -/
def task_mutating (task : String) : Bool :=
  task = "remove_labels_from_emails" || task = "filter_label_by_sender" ||
    task = "filter_label_by_machine_learning"

/-- The task kinds load_json_tasks accepts without raising: the three
executed kinds plus "database", which it silently skips. -/
def task_recognized (task : String) : Bool :=
  task_mutating task || task = "database"

/-- google_mail.py, load_json_tasks: walk the task dictionary in insertion
order, execute each recognized mutating task as it is reached, skip
"database", and raise ValueError at the first unrecognized kind.  The
embedding returns the mutating tasks executed before control left the loop,
and the task kind of the raised ValueError, if any. -/
def load_json_tasks : List String → List String × Option String
  | [] => ([], none)
  | task :: rest =>
    if task_mutating task then
      (task :: (load_json_tasks rest).1, (load_json_tasks rest).2)
    else if task = "database" then load_json_tasks rest
    else ([], some task)

/-- Counterexample to claim C8 as stated: a dictionary whose first task is
recognized and mutating and whose second is unrecognized.  The ValueError is
raised for the unrecognized kind, but the first task's remote mutations have
already been performed, so the error did not abort before every remote
mutation of the dictionary. -/
theorem load_json_tasks_partial_mutation :
    ((load_json_tasks ["remove_labels_from_emails", "bogus"]).2 = some "bogus") ∧
    ((load_json_tasks ["remove_labels_from_emails", "bogus"]).1 =
      ["remove_labels_from_emails"]) := by
  constructor <;> rfl

/-- Claim C8 (amended): load_json_tasks raises ValueError exactly for the
first unrecognized task kind (no error when every kind is recognized), and
the unrecognized task and everything after it is never executed; the
remote-mutating tasks executed before the error are exactly the recognized
mutating kinds preceding the first unrecognized kind — so an unrecognized
kind anywhere but the start does not abort before every remote mutation. -/
theorem load_json_tasks_spec (tasks : List String) :
    ((load_json_tasks tasks).2 = tasks.find? (fun t => !task_recognized t)) ∧
    ((load_json_tasks tasks).1 = (tasks.takeWhile task_recognized).filter task_mutating) := by
  induction tasks with
  | nil => exact ⟨rfl, rfl⟩
  | cons t rest ih =>
    by_cases hm : task_mutating t
    · have hr : task_recognized t := by simp [task_recognized, hm]
      have hml : load_json_tasks (t :: rest) =
          (t :: (load_json_tasks rest).1, (load_json_tasks rest).2) := by
        rw [load_json_tasks, if_pos hm]
      constructor
      · rw [hml]
        simp [List.find?_cons, hr, ih.1]
      · rw [hml]
        simp [List.takeWhile_cons, hr, List.filter_cons, hm, ih.2]
    · by_cases hd : t = "database"
      · have hr : task_recognized t := by simp [task_recognized, hd]
        have hml : load_json_tasks (t :: rest) = load_json_tasks rest := by
          rw [load_json_tasks, if_neg hm, if_pos hd]
        constructor
        · rw [hml, ih.1]
          simp [List.find?_cons, hr]
        · rw [hml, ih.2]
          simp [List.takeWhile_cons, hr, List.filter_cons, hm]
      · have hr : task_recognized t = false := by
          simp [task_recognized, hm, hd]
        have hml : load_json_tasks (t :: rest) = ([], some t) := by
          rw [load_json_tasks, if_neg hm, if_neg hd]
        constructor
        · rw [hml]
          simp [List.find?_cons, hr]
        · rw [hml]
          simp [List.takeWhile_cons, hr]

/-- message.py, Message.get_header_field_from_message: collect the value of
every header entry whose name equals the field, return the first one, or
None when the list is empty.  A header entry is embedded as a
(name, value) pair. -/
def get_header_field_from_message (headers : List (String × String))
    (field : String) : Option String :=
  let lst := (headers.filter (fun entry => decide (entry.1 = field))).map Prod.snd
  match lst with
  | [] => none
  | v :: _ => some v

/-- Claim C10: header extraction returns the value of the first entry whose
name equals the field under exact case-sensitive string equality (so
duplicate headers beyond the first are ignored), and returns none — no
error — exactly when no entry's name equals the field. -/
theorem get_header_field_first (headers : List (String × String)) (field : String) :
    (get_header_field_from_message headers field =
      (headers.find? (fun entry => decide (entry.1 = field))).map Prod.snd) ∧
    ((∀ entry ∈ headers, entry.1 ≠ field) →
      get_header_field_from_message headers field = none) := by
  have hmain : get_header_field_from_message headers field =
      (headers.find? (fun entry => decide (entry.1 = field))).map Prod.snd := by
    induction headers with
    | nil => rfl
    | cons e rest ih =>
      by_cases h : e.1 = field
      · simp [get_header_field_from_message, List.filter_cons, List.find?_cons, h]
      · simp [get_header_field_from_message, List.filter_cons, List.find?_cons, h] at ih ⊢
        exact ih
  refine ⟨hmain, fun habs => ?_⟩
  rw [hmain]
  rw [List.find?_eq_none.mpr (fun e he => by simpa using habs e he)]
  rfl

/-- Witness for C10: a concrete header list with a duplicate Subject entry —
the first value wins — and an absent To field — none, no error. -/
theorem get_header_field_first_witness :
    (get_header_field_from_message [("Subject", "s1"), ("Subject", "s2")] "Subject" =
      (([("Subject", "s1"), ("Subject", "s2")] :
          List (String × String)).find?
        (fun entry => decide (entry.1 = "Subject"))).map Prod.snd) ∧
    (get_header_field_from_message [("Subject", "s1")] "To" = none) :=
  ⟨(get_header_field_first [("Subject", "s1"), ("Subject", "s2")] "Subject").1,
   (get_header_field_first [("Subject", "s1")] "To").2 (by decide)⟩

/-- python str.split for a one-character separator: the chunks between the
occurrences of the separator, empty chunks kept, the empty string giving
one empty chunk. -/
def splitOnChar (c : Char) : List Char → List (List Char)
  | [] => [[]]
  | x :: xs =>
    if x = c then [] :: splitOnChar c xs
    else
      match splitOnChar c xs with
      | [] => [[x]]
      | h :: t => (x :: h) :: t

/-- python str.lower, character by character. -/
def lowerStr (s : List Char) : List Char := s.map Char.toLower

/-- message_tables.py, get_email_address: split on the opening angle
bracket; one chunk means no bracket, so lower-case the whole string;
otherwise take chunk [1], split it on the closing bracket, take piece [0],
and lower-case that. -/
def get_email_address (email : List Char) : List Char :=
  let email_split := splitOnChar '<' email
  if email_split.length = 1 then lowerStr email
  else lowerStr ((splitOnChar '>' (email_split.getD 1 [])).getD 0 [])

/-- Claim C9's wording: when the string contains an opening bracket, the
lower-cased substring strictly between the first opening bracket and the
following closing bracket; otherwise the whole string lower-cased. -/
def claim_email_address (email : List Char) : List Char :=
  if '<' ∈ email then
    lowerStr (((email.dropWhile (fun x => decide (x ≠ '<'))).drop 1).takeWhile
      (fun x => decide (x ≠ '>')))
  else lowerStr email

/-- Claim C9 amended: as the claim, except that the extracted text also
stops at a second opening bracket if one occurs before the closing one (the
code keeps only the text between the first and the second opening bracket
before cutting at the closing bracket). -/
def amended_email_address (email : List Char) : List Char :=
  if '<' ∈ email then
    lowerStr ((((email.dropWhile (fun x => decide (x ≠ '<'))).drop 1).takeWhile
      (fun x => decide (x ≠ '<'))).takeWhile (fun x => decide (x ≠ '>')))
  else lowerStr email

theorem splitOnChar_ne_nil (c : Char) (s : List Char) : splitOnChar c s ≠ [] := by
  cases s with
  | nil => simp [splitOnChar]
  | cons x xs =>
    by_cases h : x = c
    · simp [splitOnChar, h]
    · simp only [splitOnChar, if_neg h]
      split <;> simp

theorem takeWhile_ne_of_not_mem (c : Char) (s : List Char) (h : c ∉ s) :
    s.takeWhile (fun x => decide (x ≠ c)) = s := by
  induction s with
  | nil => rfl
  | cons x xs ih =>
    have hx : (x ≠ c) := fun e => h (e ▸ List.mem_cons_self x xs)
    rw [List.takeWhile_cons]
    rw [show decide (x ≠ c) = true from by simp [hx]]
    simp only [if_true]
    rw [ih (fun hc => h (List.mem_cons_of_mem x hc))]

theorem splitOnChar_eq (c : Char) (s : List Char) :
    splitOnChar c s =
      if c ∈ s then
        s.takeWhile (fun x => decide (x ≠ c)) ::
          splitOnChar c ((s.dropWhile (fun x => decide (x ≠ c))).drop 1)
      else [s] := by
  induction s with
  | nil => simp [splitOnChar]
  | cons x xs ih =>
    by_cases h : x = c
    · subst h
      simp only [splitOnChar, if_pos rfl, List.takeWhile_cons, List.dropWhile_cons]
      rw [if_pos (List.mem_cons_self x xs)]
      rw [show decide (x ≠ x) = false from by simp]
      simp
    · simp only [splitOnChar, if_neg h]
      by_cases hm : c ∈ xs
      · rw [ih, if_pos hm]
        have hcm : c ∈ x :: xs := List.mem_cons_of_mem x hm
        rw [if_pos hcm, List.takeWhile_cons, List.dropWhile_cons]
        rw [show decide (x ≠ c) = true from by simp [h]]
        simp
      · rw [ih, if_neg hm]
        have hcm : c ∉ x :: xs := by
          intro hc
          rcases List.mem_cons.mp hc with h1 | h2
          · exact h h1.symm
          · exact hm h2
        rw [if_neg hcm]

theorem splitOnChar_head (c : Char) (s : List Char) :
    (splitOnChar c s).getD 0 [] = s.takeWhile (fun x => decide (x ≠ c)) := by
  rw [splitOnChar_eq]
  by_cases h : c ∈ s
  · rw [if_pos h, List.getD_cons_zero]
  · rw [if_neg h, List.getD_cons_zero, takeWhile_ne_of_not_mem c s h]

theorem splitOnChar_length_one (c : Char) (s : List Char) :
    (splitOnChar c s).length = 1 ↔ c ∉ s := by
  rw [splitOnChar_eq]
  by_cases h : c ∈ s
  · simp only [if_pos h, List.length_cons]
    constructor
    · intro hl
      exact absurd (List.length_eq_zero.mp (Nat.succ_injective hl))
        (splitOnChar_ne_nil c _)
    · intro habs
      exact absurd h habs
  · simp [if_neg h, h]

theorem splitOnChar_getD_one (c : Char) (s : List Char) (hc : c ∈ s) :
    (splitOnChar c s).getD 1 [] =
      ((s.dropWhile (fun x => decide (x ≠ c))).drop 1).takeWhile
        (fun x => decide (x ≠ c)) := by
  rw [splitOnChar_eq, if_pos hc, List.getD_cons_succ]
  exact splitOnChar_head c _

/-- Counterexample to claim C9 as stated: on "a<b<c>" the substring between
the first opening bracket and the following closing bracket is "b<c", but
get_email_address splits on every opening bracket and keeps only chunk [1],
returning "b". -/
theorem get_email_address_counterexample :
    (get_email_address "a<b<c>".toList = "b".toList) ∧
    (claim_email_address "a<b<c>".toList = "b<c".toList) ∧
    (get_email_address "a<b<c>".toList ≠ claim_email_address "a<b<c>".toList) := by
  refine ⟨by decide, by decide, by decide⟩

/-- Claim C9 (amended): get_email_address lower-cases the whole string when
it has no opening bracket, and otherwise lower-cases the text after the
first opening bracket truncated at the next bracket of either kind (the
closing bracket as the claim says, but also a second opening bracket, which
cuts the extraction short); the spec's two round-trip examples hold. -/
theorem get_email_address_spec (email : List Char) :
    (get_email_address email = amended_email_address email) ∧
    (get_email_address "Jane Doe <Jane@X.com>".toList = "jane@x.com".toList) ∧
    (get_email_address "JaNe@x.com".toList = "jane@x.com".toList) := by
  refine ⟨?_, by decide, by decide⟩
  by_cases h : ('<' : Char) ∈ email
  · have hlen : ¬((splitOnChar '<' email).length = 1) :=
      fun heq => ((splitOnChar_length_one '<' email).mp heq) h
    simp only [get_email_address, amended_email_address]
    rw [if_neg hlen, if_pos h]
    rw [splitOnChar_getD_one '<' email h, splitOnChar_head]
  · have hlen : (splitOnChar '<' email).length = 1 :=
      (splitOnChar_length_one '<' email).mpr h
    simp only [get_email_address, amended_email_address]
    rw [if_pos hlen, if_neg h]
